import Mathlib

/-!
# rabbitmq-http: an HTTP bridge to an AMQP broker

Shallow embedding of `rabbitmq-http.go`.

* The AMQP client library is the environment: a deterministic oracle that answers
  every library call with a new broker state and an optional error.
* Every library call and every call on the `http.ResponseWriter` is appended to a
  trace, so that "which calls were made, in which order" can be stated.
* The streaming branch of `GET /queue` starts goroutines; it is embedded as a step
  function on the state of the goroutines and of the channels between them.
* `log.Printf` / `fmt.Printf` lines have no effect on the broker or on the response
  and are left out.
-/

namespace RabbitHttp

/-! ## Data model -/

/-- Text of a Go `error` value (`err.Error()`). -/
abbrev Err := String

/-- Go `MessageEntity`: JSON body of `POST /publish`. -/
structure MessageEntity where
  Exchange : String
  Key : String
  DeliveryMode : Nat
  Priority : Nat
  Body : String
deriving DecidableEq, Repr

/-- Go `ExchangeEntity`: JSON body of `/exchange`. -/
structure ExchangeEntity where
  Name : String
  Typ : String
  Durable : Bool
  AutoDelete : Bool
  NoWait : Bool
deriving DecidableEq, Repr

/-- Go `QueueEntity`: JSON body of `POST|DELETE /queue`. -/
structure QueueEntity where
  Name : String
  Durable : Bool
  AutoDelete : Bool
  Exclusive : Bool
  NoWait : Bool
deriving DecidableEq, Repr

/-- Go `QueueBindEntity`: JSON body of `/queue/bind`. -/
structure QueueBindEntity where
  Queue : String
  Exchange : String
  NoWait : Bool
  Keys : List String
deriving DecidableEq, Repr

/-- Calls into the AMQP client library, with the arguments the source passes. -/
inductive Call where
  | Dial
  | Channel
  | Publish (exchange key : String) (mandatory immediate : Bool)
      (deliveryMode priority : Nat) (body : String)
  | ExchangeDeclare (name typ : String) (durable autoDelete internal noWait : Bool)
  | ExchangeDelete (name : String) (ifUnused noWait : Bool)
  | QueueDeclare (name : String) (durable autoDelete exclusive noWait : Bool)
  | QueueDelete (name : String) (ifUnused ifEmpty noWait : Bool)
  | QueueBind (name key exchange : String) (noWait : Bool)
  | QueueUnbind (name key exchange : String)
  | Consume (queue consumer : String) (autoAck exclusive noLocal noWait : Bool)
  | ConnClose
deriving DecidableEq, Repr

/-- Observable events of one request, in program order. -/
inductive Event where
  | Broker (c : Call) (res : Option Err)
  | NotifyReturn
  | HttpError (msg : String) (code : Nat)
  | Write (b : String)
  | WriteHeader (code : Nat)
  | Flush
  | Recv (b : String)
deriving DecidableEq, Repr

/-- The AMQP library and the broker behind it: state `σ`, and for each call the next
state and the error the call returns (`none` is Go `nil`). -/
abbrev Amqp (σ : Type) := σ → Call → σ × Option Err

/-- State of the `http.ResponseWriter`: the status line once it is written, the body
bytes written so far, and the bytes already pushed to the client by `Flush`. -/
structure ResponseWriter where
  status : Option Nat
  body : String
  sent : String
deriving DecidableEq, Repr

/-- Everything one request can change: broker, response, and the trace of events. -/
structure World (σ : Type) where
  broker : σ
  trace : List Event
  w : ResponseWriter

/-- State at handler entry. -/
def World.init {σ : Type} (b : σ) : World σ :=
  { broker := b, trace := [], w := { status := none, body := "", sent := "" } }

/-- Go `http.Request`, as far as the handlers read it: the method, the result of
`ioutil.ReadAll(r.Body)`, and `r.Form["name"]` after `ParseForm`. -/
structure Request where
  Method : String
  Body : Except Err String
  Form : List String

/-- Go `amqp.Return`; the handler reads only `ReplyText`. -/
structure Return where
  ReplyText : String
deriving DecidableEq, Repr

/-- Which arm of the `select` in `PublishHandler` fires: a value received from `cFail`,
or `time.After(100*time.Millisecond)`. -/
inductive Race where
  | returned (ch : Return)
  | windowElapsed
deriving DecidableEq, Repr

/-! ## http.ResponseWriter -/

/-- Go `w.WriteHeader(code)`: the first status written wins. -/
def ResponseWriter.WriteHeader (code : Nat) (w : ResponseWriter) : ResponseWriter :=
  match w.status with
  | none => { w with status := some code }
  | some _ => w

/-- Go `w.Write(b)`: writes status 200 first when no status was written yet. -/
def ResponseWriter.Write (b : String) (w : ResponseWriter) : ResponseWriter :=
  let w1 := w.WriteHeader 200
  { w1 with body := w1.body ++ b }

/-- Go `w.(http.Flusher).Flush()`: everything written so far goes to the client. -/
def ResponseWriter.Flush (w : ResponseWriter) : ResponseWriter :=
  let w1 := w.WriteHeader 200
  { w1 with sent := w1.body }

/-- Go `http.Error(w, msg, code)`: status `code`, then `fmt.Fprintln(w, msg)`. -/
def ResponseWriter.Error (msg : String) (code : Nat) (w : ResponseWriter) : ResponseWriter :=
  (w.WriteHeader code).Write (msg ++ "\n")

variable {σ : Type}

/-- Go `http.Error(w, msg, code)` on the world. -/
def httpError (msg : String) (code : Nat) (s : World σ) : World σ :=
  { s with trace := s.trace ++ [Event.HttpError msg code], w := s.w.Error msg code }

/-- Go `w.Write([]byte(b))` on the world. -/
def httpWrite (b : String) (s : World σ) : World σ :=
  { s with trace := s.trace ++ [Event.Write b], w := s.w.Write b }

/-- Go `w.WriteHeader(code)` on the world. -/
def httpWriteHeader (code : Nat) (s : World σ) : World σ :=
  { s with trace := s.trace ++ [Event.WriteHeader code], w := s.w.WriteHeader code }

/-- Go `w.(http.Flusher).Flush()` on the world. -/
def httpFlush (s : World σ) : World σ :=
  { s with trace := s.trace ++ [Event.Flush], w := s.w.Flush }

/-! ## RabbitMQ wrapper -/

/-- One library call: ask the oracle, record the call and its result. -/
def call (B : Amqp σ) (c : Call) (s : World σ) : Option Err × World σ :=
  ((B s.broker c).2,
    { s with broker := (B s.broker c).1, trace := s.trace ++ [Event.Broker c (B s.broker c).2] })

/-- Go `RabbitMQ.Connect`: `amqp.Dial`, then `conn.Channel()`. -/
def Connect (B : Amqp σ) (s : World σ) : Option Err × World σ :=
  match call B Call.Dial s with
  | (some err, s1) => (some err, s1)
  | (none, s1) =>
    match call B Call.Channel s1 with
    | (some err, s2) => (some err, s2)
    | (none, s2) => (none, s2)

/-- Go `RabbitMQ.Publish`: `channel.Publish(exchange, key, false, false, ...)`. -/
def Publish (B : Amqp σ) (exchange key : String) (deliverymode priority : Nat) (body : String)
    (s : World σ) : Option Err × World σ :=
  match call B (Call.Publish exchange key false false deliverymode priority body) s with
  | (some err, s1) => (some err, s1)
  | (none, s1) => (none, s1)

/-- Go `RabbitMQ.DeclareExchange`. -/
def DeclareExchange (B : Amqp σ) (name typ : String) (durable autodelete nowait : Bool)
    (s : World σ) : Option Err × World σ :=
  match call B (Call.ExchangeDeclare name typ durable autodelete false nowait) s with
  | (some err, s1) => (some err, s1)
  | (none, s1) => (none, s1)

/-- Go `RabbitMQ.DeleteExchange`. -/
def DeleteExchange (B : Amqp σ) (name : String) (s : World σ) : Option Err × World σ :=
  match call B (Call.ExchangeDelete name false false) s with
  | (some err, s1) => (some err, s1)
  | (none, s1) => (none, s1)

/-- Go `RabbitMQ.DeclareQueue`. -/
def DeclareQueue (B : Amqp σ) (name : String) (durable autodelete exclusive nowait : Bool)
    (s : World σ) : Option Err × World σ :=
  match call B (Call.QueueDeclare name durable autodelete exclusive nowait) s with
  | (some err, s1) => (some err, s1)
  | (none, s1) => (none, s1)

/-- Go `RabbitMQ.DeleteQueue`. -/
def DeleteQueue (B : Amqp σ) (name : String) (s : World σ) : Option Err × World σ :=
  match call B (Call.QueueDelete name false false false) s with
  | (some err, s1) => (some err, s1)
  | (none, s1) => (none, s1)

/-- Go `RabbitMQ.BindQueue`: `for _, key := range keys`, returning at the first error. -/
def BindQueue (B : Amqp σ) (queue exchange : String) (keys : List String) (nowait : Bool)
    (s : World σ) : Option Err × World σ :=
  match keys with
  | [] => (none, s)
  | key :: rest =>
    match call B (Call.QueueBind queue key exchange nowait) s with
    | (some err, s1) => (some err, s1)
    | (none, s1) => BindQueue B queue exchange rest nowait s1

/-- Go `RabbitMQ.UnBindQueue`: `for _, key := range keys`, returning at the first error. -/
def UnBindQueue (B : Amqp σ) (queue exchange : String) (keys : List String)
    (s : World σ) : Option Err × World σ :=
  match keys with
  | [] => (none, s)
  | key :: rest =>
    match call B (Call.QueueUnbind queue key exchange) s with
    | (some err, s1) => (some err, s1)
    | (none, s1) => UnBindQueue B queue exchange rest s1

/-- Go `RabbitMQ.ConsumeQueue`, the part run by the caller: `channel.Consume(queue, "", true,
false, false, false, nil)`. On success the forwarding goroutine is started; it is a
`Consumer` of the `Bridge` below. -/
def ConsumeQueue (B : Amqp σ) (queue : String) (s : World σ) : Option Err × World σ :=
  match call B (Call.Consume queue "" true false false false) s with
  | (some err, s1) => (some err, s1)
  | (none, s1) => (none, s1)

/-- Go `RabbitMQ.Close`: `r.conn.Close()`, whatever was done to the session before. -/
def Close (B : Amqp σ) (s : World σ) : Option Err × World σ :=
  match call B Call.ConnClose s with
  | (some err, s1) => (some err, s1)
  | (none, s1) => (none, s1)

/-- Number of calls of `Close` applied one after the other to the same session. -/
def closeTimes (B : Amqp σ) : Nat → World σ → World σ
  | 0, s => s
  | k + 1, s => closeTimes B k (Close B s).2

/-! ## HTTP handlers -/

/-- What became of a handler invocation: it returned, or (only `GET /queue`) it is in
its streaming loop with `n` forwarding goroutines started. -/
inductive Outcome (σ : Type) where
  | returned (s : World σ)
  | streaming (s : World σ) (n : Nat)

/-- The world of an outcome. -/
def Outcome.world : Outcome σ → World σ
  | Outcome.returned s => s
  | Outcome.streaming s _ => s

/-- The subscription loop of `GET /queue`: `for _, name := range r.Form["name"]`,
leaving the loop at the first `ConsumeQueue` error. -/
def subscribeAll (B : Amqp σ) (names : List String) (s : World σ) : Option Err × World σ :=
  match names with
  | [] => (none, s)
  | name :: rest =>
    match ConsumeQueue B name s with
    | (some err, s1) => (some err, s1)
    | (none, s1) => subscribeAll B rest s1

/-- Go `QueueHandler`. -/
def QueueHandler (B : Amqp σ) (unmarshal : String → Except Err QueueEntity)
    (r : Request) (b : σ) : Outcome σ :=
  let s := World.init b
  if r.Method = "POST" ∨ r.Method = "DELETE" then
    match r.Body with
    | Except.error err => Outcome.returned (httpError err 500 s)
    | Except.ok body =>
      match unmarshal body with
      | Except.error err => Outcome.returned (httpError err 500 s)
      | Except.ok entity =>
        match Connect B s with
        | (some err, s1) => Outcome.returned (httpError err 500 s1)
        | (none, s1) =>
          -- defer rabbit.Close()
          let s2 :=
            if r.Method = "POST" then
              match DeclareQueue B entity.Name entity.Durable entity.AutoDelete
                  entity.Exclusive entity.NoWait s1 with
              | (some err, s2) => httpError err 500 s2
              | (none, s2) => httpWrite "declare queue ok" s2
            else if r.Method = "DELETE" then
              match DeleteQueue B entity.Name s1 with
              | (some err, s2) => httpError err 500 s2
              | (none, s2) => httpWrite "delete queue ok" s2
            else s1
          Outcome.returned (Close B s2).2
  else if r.Method = "GET" then
    match Connect B s with
    | (some err, s1) => Outcome.returned (httpError err 500 s1)
    | (none, s1) =>
      match subscribeAll B r.Form s1 with
      | (some err, s2) => Outcome.returned (httpError err 500 s2)
      | (none, s2) => Outcome.streaming (httpFlush (httpWrite "" s2)) r.Form.length
  else Outcome.returned (httpWriteHeader 405 s)

/-- Go `QueueBindHandler`. -/
def QueueBindHandler (B : Amqp σ) (unmarshal : String → Except Err QueueBindEntity)
    (r : Request) (b : σ) : World σ :=
  let s := World.init b
  if r.Method = "POST" ∨ r.Method = "DELETE" then
    match r.Body with
    | Except.error err => httpError err 500 s
    | Except.ok body =>
      match unmarshal body with
      | Except.error err => httpError err 500 s
      | Except.ok entity =>
        match Connect B s with
        | (some err, s1) => httpError err 500 s1
        | (none, s1) =>
          -- defer rabbit.Close()
          let s2 :=
            if r.Method = "POST" then
              match BindQueue B entity.Queue entity.Exchange entity.Keys entity.NoWait s1 with
              | (some err, s2) => httpError err 500 s2
              | (none, s2) => httpWrite "bind queue ok" s2
            else if r.Method = "DELETE" then
              match UnBindQueue B entity.Queue entity.Exchange entity.Keys s1 with
              | (some err, s2) => httpError err 500 s2
              | (none, s2) => httpWrite "unbind queue ok" s2
            else s1
          (Close B s2).2
  else httpWriteHeader 405 s

/-- Go `PublishHandler`; `race` is the arm of the `select` that fires. -/
def PublishHandler (B : Amqp σ) (unmarshal : String → Except Err MessageEntity)
    (race : Race) (r : Request) (b : σ) : World σ :=
  let s := World.init b
  if r.Method = "POST" then
    match r.Body with
    | Except.error err => httpError err 500 s
    | Except.ok body =>
      match unmarshal body with
      | Except.error err => httpError err 500 s
      | Except.ok entity =>
        match Connect B s with
        | (some err, s1) => httpError err 500 s1
        | (none, s1) =>
          -- defer rabbit.Close()
          let s2 :=
            match Publish B entity.Exchange entity.Key entity.DeliveryMode entity.Priority
                entity.Body s1 with
            | (some err, s2) => httpError err 500 s2
            | (none, s2) =>
              let s3 := { s2 with trace := s2.trace ++ [Event.NotifyReturn] }
              match race with
              | Race.returned ch =>
                httpError ("Incorrect exchange or queue name " ++ ch.ReplyText) 400 s3
              | Race.windowElapsed => httpWrite "Publish message OK\n" s3
          (Close B s2).2
  else httpWriteHeader 405 s

/-- Go `ExchangeHandler`. -/
def ExchangeHandler (B : Amqp σ) (unmarshal : String → Except Err ExchangeEntity)
    (r : Request) (b : σ) : World σ :=
  let s := World.init b
  if r.Method = "POST" ∨ r.Method = "DELETE" then
    match r.Body with
    | Except.error err => httpError err 500 s
    | Except.ok body =>
      match unmarshal body with
      | Except.error err => httpError err 500 s
      | Except.ok entity =>
        match Connect B s with
        | (some err, s1) => httpError err 500 s1
        | (none, s1) =>
          -- defer rabbit.Close()
          let s2 :=
            if r.Method = "POST" then
              match DeclareExchange B entity.Name entity.Typ entity.Durable entity.AutoDelete
                  entity.NoWait s1 with
              | (some err, s2) => httpError err 500 s2
              | (none, s2) => httpWrite "declare exchange ok" s2
            else if r.Method = "DELETE" then
              match DeleteExchange B entity.Name s1 with
              | (some err, s2) => httpError err 500 s2
              | (none, s2) => httpWrite "delete exchange ok" s2
            else s1
          (Close B s2).2
  else httpWriteHeader 405 s

/-! ## Trace observations -/

/-- The event is a call into the AMQP library. -/
def Event.isBroker : Event → Bool
  | Event.Broker _ _ => true
  | _ => false

/-- The event is a call of the underlying connection's `Close`. -/
def Event.isConnClose : Event → Bool
  | Event.Broker Call.ConnClose _ => true
  | _ => false

/-- The event writes a response: `http.Error`, `w.Write` or `w.WriteHeader`. -/
def Event.isResponse : Event → Bool
  | Event.HttpError _ _ => true
  | Event.Write _ => true
  | Event.WriteHeader _ => true
  | _ => false

/-- Number of calls of the underlying connection's `Close` in a trace. -/
def closeCalls (t : List Event) : Nat := t.countP Event.isConnClose

/-- Number of responses written in a trace. -/
def responsesWritten (t : List Event) : Nat := t.countP Event.isResponse

/-- Number of calls into the AMQP library in a trace. -/
def brokerCalls (t : List Event) : Nat := t.countP Event.isBroker

/-- The common shape of the loops of `BindQueue`, `UnBindQueue` and of the subscription
loop: one library call `mk key` per key, in list order, leaving at the first error. -/
def callEach (B : Amqp σ) (mk : String → Call) (keys : List String) (s : World σ) :
    Option Err × World σ :=
  match keys with
  | [] => (none, s)
  | key :: rest =>
    match call B (mk key) s with
    | (some err, s1) => (some err, s1)
    | (none, s1) => callEach B mk rest s1

/-- The events of the calls `mk key` with the given results, one per key, in order,
for as many keys as there are results. -/
def callEvents (mk : String → Call) (keys : List String) (results : List (Option Err)) :
    List Event :=
  List.zipWith (fun key res => Event.Broker (mk key) res) keys results

/-! ## Streaming branch of `GET /queue` -/

/-- One iteration of the `for` loop of `QueueHandler`: a receive from `message`,
`fmt.Fprintf(w, "%s\n", b)`, then `Flush`. -/
def loopBody (b : String) (s : World σ) : World σ :=
  httpFlush (httpWrite (b ++ "\n") { s with trace := s.trace ++ [Event.Recv b] })

/-- The `for` loop of `QueueHandler` run on the messages it has received so far from
`message`, in the order received; after them it is blocked in `<-message`. -/
def streamLoop (msgs : List String) (s : World σ) : World σ :=
  match msgs with
  | [] => s
  | b :: rest => streamLoop rest (loopBody b s)

/-- Program counter of the forwarding goroutine of `ConsumeQueue`:
`ranging` is the receive of `for d := range deliveries`, `sending b` is the send
`message <- d.Body`, `signalling` is the send `done <- nil` after the range ended. -/
inductive Fwd where
  | ranging
  | sending (b : String)
  | signalling
deriving DecidableEq, Repr

/-- One consumer opened by `ConsumeQueue`: its `deliveries` channel (`pending`, `closed`),
its forwarding goroutine, and the history of all deliveries put on the channel. -/
structure Consumer where
  delivered : List String
  pending : List String
  closed : Bool
  fwd : Fwd
deriving DecidableEq, Repr

/-- Program counter of the goroutine started at `notify := CloseNotify()`:
`waiting` is `<-notify`, `notified` is just before `rabbit.Close()`, `closed` is after. -/
inductive Watcher where
  | waiting
  | notified
  | closed
deriving DecidableEq, Repr

/-- State of a `GET /queue` request in its streaming loop. `consumers i` for `i < n` is the
consumer of the `i`-th name of the request. `frames` records, for every frame the loop has
written, the consumer whose goroutine sent it. `log` records every delivery the broker has
made to a consumer of the request, in the order the broker made them. The main goroutine is
in `<-message` between two steps. No goroutine receives from `done`. -/
structure Bridge (σ : Type) where
  world : World σ
  n : Nat
  consumers : Nat → Consumer
  watcher : Watcher
  frames : List (Nat × String)
  log : List (Nat × String)

/-- State when the streaming loop is entered. -/
def Bridge.init (s : World σ) (n : Nat) : Bridge σ :=
  { world := s, n := n,
    consumers := fun _ => { delivered := [], pending := [], closed := false, fwd := Fwd.ranging },
    watcher := Watcher.waiting, frames := [], log := [] }

/-- Steps of the streaming state: two of the broker, three of a forwarding goroutine
(the third together with the main loop), one of the client, one of the watcher. -/
inductive Action where
  | deliver (i : Nat) (b : String)
  | cancel (i : Nat)
  | take (i : Nat)
  | observeEnd (i : Nat)
  | forward (i : Nat)
  | disconnect
  | watcherClose
deriving DecidableEq, Repr

/-- Replace consumer `i`. -/
def setConsumer (f : Nat → Consumer) (i : Nat) (c : Consumer) : Nat → Consumer :=
  fun j => if j = i then c else f j

/-- One step; `none` when the action cannot happen in this state.

* `deliver i b`: the broker puts a delivery on the open channel of consumer `i`.
* `cancel i`: the `deliveries` channel of consumer `i` is closed.
* `take i`: `for d := range deliveries` receives the next delivery.
* `observeEnd i`: the range finds the channel closed and empty; the goroutine goes to
  `done <- nil`.
* `forward i`: the send `message <- d.Body` meets the receive of the main loop, which
  runs one iteration of its body.
* `disconnect`: the channel of `CloseNotify` fires and the watcher receives from it.
* `watcherClose`: the watcher calls `rabbit.Close()`; closing the connection closes
  every `deliveries` channel opened on it. -/
def step (B : Amqp σ) (a : Action) (st : Bridge σ) : Option (Bridge σ) :=
  let c := st.consumers
  match a with
  | Action.deliver i b =>
    if i < st.n ∧ (c i).closed = false then
      some { st with consumers := (setConsumer c i
        { c i with delivered := (c i).delivered ++ [b], pending := (c i).pending ++ [b] }),
                     log := st.log ++ [(i, b)] }
    else none
  | Action.cancel i =>
    if i < st.n then
      some { st with consumers := setConsumer c i ({ c i with closed := true }) }
    else none
  | Action.take i =>
    if i < st.n then
      match (c i).fwd, (c i).pending with
      | Fwd.ranging, d :: rest =>
        some { st with consumers := (setConsumer c i
          { c i with pending := rest, fwd := Fwd.sending d }) }
      | _, _ => none
    else none
  | Action.observeEnd i =>
    if i < st.n then
      match (c i).fwd, (c i).pending, (c i).closed with
      | Fwd.ranging, [], true =>
        some { st with consumers := setConsumer c i ({ c i with fwd := Fwd.signalling }) }
      | _, _, _ => none
    else none
  | Action.forward i =>
    if i < st.n then
      match (c i).fwd with
      | Fwd.sending b =>
        some { st with world := loopBody b st.world,
                       consumers := setConsumer c i ({ c i with fwd := Fwd.ranging }),
                       frames := st.frames ++ [(i, b)] }
      | _ => none
    else none
  | Action.disconnect =>
    match st.watcher with
    | Watcher.waiting => some { st with watcher := Watcher.notified }
    | _ => none
  | Action.watcherClose =>
    match st.watcher with
    | Watcher.notified =>
      some { st with world := (Close B st.world).2,
                     consumers := fun j => ({ c j with closed := true }),
                     watcher := Watcher.closed }
    | _ => none

/-- Run a schedule; `none` when one of its actions cannot happen. -/
def run (B : Amqp σ) (acts : List Action) (st : Bridge σ) : Option (Bridge σ) :=
  match acts with
  | [] => some st
  | a :: rest =>
    match step B a st with
    | none => none
    | some st1 => run B rest st1

/-- Bodies of the entries of consumer `i` in a list of frames or of deliveries, in order. -/
def framesOf (i : Nat) (frames : List (Nat × String)) : List String :=
  (frames.filter (fun f => f.1 = i)).map Prod.snd

/-- Bodies of the entries of queue `q` in a list of frames or of deliveries, in order: the
entries of every consumer that the request with queue names `names` opened on `q`. -/
def ofQueue (names : List String) (q : String) (l : List (Nat × String)) : List String :=
  (l.filter (fun f => names[f.1]? = some q)).map Prod.snd

/-- The deliveries a forwarding goroutine has taken and not yet handed to the loop. -/
def Fwd.holding : Fwd → List String
  | Fwd.sending b => [b]
  | _ => []

/-- Calls of `Close` made by the watcher goroutine, by its program counter. -/
def expectedCloses : Watcher → Nat
  | Watcher.closed => 1
  | _ => 0

/-! ## The library connection -/

/-- Text of the library's `amqp.ErrClosed`. -/
def ErrClosed : Err := "Exception (504) Reason: \"channel/connection is not open\""

/-- The `amqp.Connection` of one session: the broker behind it, whether the connection has
been shut down, and the number of `connection.close` requests sent to the broker on it. -/
structure Conn (σ : Type) where
  wire : σ
  closed : Bool
  closeOps : Nat

/-- A session's connection before `amqp.Dial`. -/
def Conn.fresh (b : σ) : Conn σ := { wire := b, closed := false, closeOps := 0 }

/-- Model of the library's connection over a broker `W` (the library is outside the
repository; this is its documented behaviour). `Connection.Close` on a connection that is
shut down returns `ErrClosed` and sends nothing; otherwise it sends `connection.close` to the
broker and shuts the connection down whatever the broker answers. Any other call on a
connection that is shut down is refused with `ErrClosed`. `Dial` makes the connection. -/
def libConn (W : Amqp σ) : Amqp (Conn σ) := fun c cl =>
  match cl with
  | Call.Dial =>
    ({ c with wire := (W c.wire Call.Dial).1, closed := false }, (W c.wire Call.Dial).2)
  | Call.ConnClose =>
    if c.closed = true then (c, some ErrClosed)
    else ({ wire := (W c.wire Call.ConnClose).1, closed := true, closeOps := c.closeOps + 1 },
          (W c.wire Call.ConnClose).2)
  | other =>
    if c.closed = true then (c, some ErrClosed)
    else ({ c with wire := (W c.wire other).1 }, (W c.wire other).2)

/-- The session after `Connect` on a fresh connection. -/
def connected (W : Amqp σ) (b : σ) : World (Conn σ) :=
  (Connect (libConn W) (World.init (Conn.fresh b))).2

/-- The session after `Connect` and one `Close`. -/
def closedOnce (W : Amqp σ) (b : σ) : World (Conn σ) :=
  (Close (libConn W) (connected W b)).2

/-! ## Example brokers and requests -/

/-- A broker on which every call succeeds. -/
def okBroker : Amqp Unit := fun _ _ => ((), none)

/-- A broker on which every call succeeds except `Consume` on queue `"missing"`. -/
def noQueueBroker : Amqp Unit := fun _ c =>
  match c with
  | Call.Consume queue _ _ _ _ _ =>
    if queue = "missing" then ((), some "NOT_FOUND - no queue") else ((), none)
  | _ => ((), none)

/-- A broker on which `QueueBind` and `QueueUnbind` fail for key `"bad"`. -/
def badKeyBroker : Amqp Unit := fun _ c =>
  match c with
  | Call.QueueBind _ key _ _ => if key = "bad" then ((), some "bind refused") else ((), none)
  | Call.QueueUnbind _ key _ => if key = "bad" then ((), some "unbind refused") else ((), none)
  | _ => ((), none)

/-- A JSON decoder that rejects every body. -/
def rejectAll (α : Type) : String → Except Err α := fun _ => Except.error "invalid character"

/-- A JSON decoder that accepts every body as the given entity. -/
def acceptAs {α : Type} (e : α) : String → Except Err α := fun _ => Except.ok e

/-! ## Basic facts about the wrapper -/

section Lemmas

variable (B : Amqp σ)

@[simp] theorem closeCalls_append (t u : List Event) :
    closeCalls (t ++ u) = closeCalls t + closeCalls u := List.countP_append _ _ _

@[simp] theorem closeCalls_nil : closeCalls [] = 0 := rfl

@[simp] theorem closeCalls_cons (e : Event) (t : List Event) :
    closeCalls (e :: t) = closeCalls t + (if e.isConnClose = true then 1 else 0) :=
  List.countP_cons _ _ _

@[simp] theorem responsesWritten_append (t u : List Event) :
    responsesWritten (t ++ u) = responsesWritten t + responsesWritten u :=
  List.countP_append _ _ _

@[simp] theorem responsesWritten_nil : responsesWritten [] = 0 := rfl

@[simp] theorem responsesWritten_cons (e : Event) (t : List Event) :
    responsesWritten (e :: t) = responsesWritten t + (if e.isResponse = true then 1 else 0) :=
  List.countP_cons _ _ _

@[simp] theorem call_fst (c : Call) (s : World σ) : (call B c s).1 = (B s.broker c).2 := rfl

@[simp] theorem call_trace (c : Call) (s : World σ) :
    (call B c s).2.trace = s.trace ++ [Event.Broker c (B s.broker c).2] := rfl

@[simp] theorem call_w (c : Call) (s : World σ) : (call B c s).2.w = s.w := rfl

@[simp] theorem call_broker (c : Call) (s : World σ) :
    (call B c s).2.broker = (B s.broker c).1 := rfl

theorem wrap_eq (p : Option Err × World σ) :
    (match p with
      | (some err, s1) => (some err, s1)
      | (none, s1) => ((none : Option Err), s1)) = p := by
  rcases p with ⟨_ | e, s1⟩ <;> rfl

@[simp] theorem Publish_eq (exchange key : String) (dm pr : Nat) (body : String) (s : World σ) :
    Publish B exchange key dm pr body s
      = call B (Call.Publish exchange key false false dm pr body) s := wrap_eq _

@[simp] theorem DeclareExchange_eq (name typ : String) (d a n : Bool) (s : World σ) :
    DeclareExchange B name typ d a n s
      = call B (Call.ExchangeDeclare name typ d a false n) s := wrap_eq _

@[simp] theorem DeleteExchange_eq (name : String) (s : World σ) :
    DeleteExchange B name s = call B (Call.ExchangeDelete name false false) s := wrap_eq _

@[simp] theorem DeclareQueue_eq (name : String) (d a e n : Bool) (s : World σ) :
    DeclareQueue B name d a e n s = call B (Call.QueueDeclare name d a e n) s := wrap_eq _

@[simp] theorem DeleteQueue_eq (name : String) (s : World σ) :
    DeleteQueue B name s = call B (Call.QueueDelete name false false false) s := wrap_eq _

@[simp] theorem ConsumeQueue_eq (queue : String) (s : World σ) :
    ConsumeQueue B queue s = call B (Call.Consume queue "" true false false false) s :=
  wrap_eq _

@[simp] theorem Close_eq (s : World σ) : Close B s = call B Call.ConnClose s := wrap_eq _

theorem Connect_w (s : World σ) : (Connect B s).2.w = s.w := by
  unfold Connect
  cases h1 : (B s.broker Call.Dial).2 <;>
    cases h2 : (B (B s.broker Call.Dial).1 Call.Channel).2 <;>
    simp [call, h1, h2]

theorem Connect_trace (s : World σ) :
    ∃ evs, (Connect B s).2.trace = s.trace ++ evs ∧
      closeCalls evs = 0 ∧ responsesWritten evs = 0 := by
  unfold Connect
  cases h1 : (B s.broker Call.Dial).2 <;>
    cases h2 : (B (B s.broker Call.Dial).1 Call.Channel).2 <;>
    simp [call, h1, h2, Event.isConnClose, Event.isResponse]

end Lemmas

/-! ## The key loops -/

theorem BindQueue_eq_callEach (B : Amqp σ) (queue exchange : String) (keys : List String) (nowait : Bool)
    (s : World σ) :
    BindQueue B queue exchange keys nowait s
      = callEach B (fun key => Call.QueueBind queue key exchange nowait) keys s := by
  induction keys generalizing s with
  | nil => rfl
  | cons key rest ih =>
    unfold BindQueue callEach
    cases h : (B s.broker (Call.QueueBind queue key exchange nowait)).2 <;> simp [call, h, ih]

theorem callEach_calls (B : Amqp σ) (mk : String → Call) (hmk : ∀ key, mk key ≠ Call.ConnClose)
    (keys : List String) (s : World σ) :
    ∃ results : List (Option Err),
      results.length ≤ keys.length ∧
      (callEach B mk keys s).2.trace
        = s.trace ++ callEvents mk keys results ∧
      (callEach B mk keys s).2.w = s.w ∧
      closeCalls (callEvents mk keys results) = 0 ∧
      responsesWritten (callEvents mk keys results) = 0 ∧
      (∀ res ∈ results.dropLast, res = none) ∧
      ((callEach B mk keys s).1 = none → results.length = keys.length ∧ ∀ res ∈ results, res = none) ∧
      (∀ err, (callEach B mk keys s).1 = some err → results.getLast? = some (some err)) := by
  induction keys generalizing s with
  | nil => exact ⟨[], by simp [callEach, callEvents]⟩
  | cons key rest ih =>
    have hk : (Event.Broker (mk key) (B s.broker (mk key)).2).isConnClose = false := by
      have := hmk key
      cases hc : mk key <;> simp_all [Event.isConnClose]
    cases h : (B s.broker (mk key)).2 with
    | some err =>
      refine ⟨[some err], ?_⟩
      rw [h] at hk
      simp [callEach, callEvents, call, h, hk, Event.isResponse]
    | none =>
      obtain ⟨res, hlen, htr, hw, hcl, hrw, hdl, hnone, hsome⟩ := ih (call B (mk key) s).2
      refine ⟨none :: res, ?_⟩
      rw [h] at hk
      have hce : callEach B mk (key :: rest) s = callEach B mk rest (call B (mk key) s).2 := by
        conv_lhs => unfold callEach
        simp [call, h]
      rw [hce]
      refine ⟨by simpa using hlen, ?_, ?_, ?_, ?_, ?_, ?_, ?_⟩
      · rw [htr]; simp [h, callEvents]
      · rw [hw]; rfl
      · simp [callEvents] at hcl ⊢; simp [hcl, hk]
      · simp [callEvents] at hrw ⊢; simp [hrw, Event.isResponse]
      · intro r hr
        cases res with
        | nil => simp at hr
        | cons a t =>
          rw [List.dropLast_cons₂] at hr
          rcases List.mem_cons.1 hr with h1 | h1
          · exact h1
          · exact hdl r h1
      · intro hn
        obtain ⟨h1, h2⟩ := hnone hn
        refine ⟨by simp [h1], ?_⟩
        intro r hr
        rcases List.mem_cons.1 hr with h3 | h3
        · exact h3
        · exact h2 r h3
      · intro err he
        have := hsome err he
        cases res with
        | nil => simp at this
        | cons a t => simpa [List.getLast?_cons_cons] using this

theorem UnBindQueue_eq_callEach (B : Amqp σ) (queue exchange : String) (keys : List String)
    (s : World σ) :
    UnBindQueue B queue exchange keys s
      = callEach B (fun key => Call.QueueUnbind queue key exchange) keys s := by
  induction keys generalizing s with
  | nil => rfl
  | cons key rest ih =>
    unfold UnBindQueue callEach
    cases h : (B s.broker (Call.QueueUnbind queue key exchange)).2 <;> simp [call, h, ih]

theorem subscribeAll_eq_callEach (B : Amqp σ) (names : List String) (s : World σ) :
    subscribeAll B names s
      = callEach B (fun name => Call.Consume name "" true false false false) names s := by
  induction names generalizing s with
  | nil => rfl
  | cons name rest ih =>
    unfold subscribeAll callEach
    cases h : (B s.broker (Call.Consume name "" true false false false)).2 <;>
      simp [call, h, ih]

theorem Connect_ok_trace (B : Amqp σ) (s : World σ) (h : (Connect B s).1 = none) :
    (Connect B s).2.trace
      = s.trace ++ [Event.Broker Call.Dial none, Event.Broker Call.Channel none] := by
  unfold Connect at h ⊢
  cases h1 : (B s.broker Call.Dial).2 <;>
    cases h2 : (B (B s.broker Call.Dial).1 Call.Channel).2 <;>
    simp_all [call]


/-! ## `POST /publish` -/

/-- C1. In `PublishHandler`, for a POST request whose body parses, whose `Connect` succeeds
and whose publish call returns no error, exactly one response is written, and the arm of the
`select` that fires decides it: a return notification gives 400 with a body that carries its
`ReplyText`; the elapsed 100 ms window gives 200 with the line `Publish message OK` as body
(the text and the newline the source writes after it). -/
theorem publish_race_decides_response (B : Amqp σ)
    (unmarshal : String → Except Err MessageEntity) (race : Race) (r : Request) (b : σ)
    (raw : String) (entity : MessageEntity)
    (hm : r.Method = "POST") (hb : r.Body = Except.ok raw)
    (hu : unmarshal raw = Except.ok entity)
    (hc : (Connect B (World.init b)).1 = none)
    (hp : (Publish B entity.Exchange entity.Key entity.DeliveryMode entity.Priority
            entity.Body (Connect B (World.init b)).2).1 = none) :
    responsesWritten (PublishHandler B unmarshal race r b).trace = 1 ∧
    (∀ ch, race = Race.returned ch →
      (PublishHandler B unmarshal race r b).w.status = some 400 ∧
      (PublishHandler B unmarshal race r b).w.body
        = "Incorrect exchange or queue name " ++ ch.ReplyText ++ "\n") ∧
    (race = Race.windowElapsed →
      (PublishHandler B unmarshal race r b).w.status = some 200 ∧
      (PublishHandler B unmarshal race r b).w.body = "Publish message OK\n") := by
  obtain ⟨evs, htr, -, hresp⟩ := Connect_trace B (World.init b)
  have hw := Connect_w B (World.init b)
  rcases hC : Connect B (World.init b) with ⟨e, s1⟩
  rw [hC] at hc hp htr hw
  simp only at hc hp htr hw
  subst hc
  simp only [Publish_eq, call_fst] at hp
  have hinit : (World.init b).trace = [] := rfl
  have hwi : s1.w = { status := none, body := "", sent := "" } := hw
  rw [hinit, List.nil_append] at htr
  unfold PublishHandler
  cases race with
  | returned ch =>
    simp [hm, hb, hu, hC, call, hp, httpError, htr, hwi, hresp,
      ResponseWriter.Error, ResponseWriter.Write, ResponseWriter.WriteHeader, Event.isResponse]
  | windowElapsed =>
    simp [hm, hb, hu, hC, call, hp, httpWrite, htr, hwi, hresp,
      ResponseWriter.Write, ResponseWriter.WriteHeader, Event.isResponse]

/-- C1, on a broker that accepts every call, with the window elapsing. -/
theorem publish_race_decides_response_witness :
    responsesWritten (PublishHandler okBroker
        (acceptAs (MessageEntity.mk "ex" "key" 1 0 "hello")) Race.windowElapsed
        (Request.mk "POST" (Except.ok "json") []) ()).trace = 1 ∧
    (PublishHandler okBroker
        (acceptAs (MessageEntity.mk "ex" "key" 1 0 "hello")) Race.windowElapsed
        (Request.mk "POST" (Except.ok "json") []) ()).w.body = "Publish message OK\n" :=
  have h := publish_race_decides_response okBroker
    (acceptAs (MessageEntity.mk "ex" "key" 1 0 "hello")) Race.windowElapsed
    (Request.mk "POST" (Except.ok "json") []) () "json" (MessageEntity.mk "ex" "key" 1 0 "hello")
    rfl rfl rfl rfl rfl
  ⟨h.1, (h.2.2 rfl).2⟩

/-! ## Cleanup on the request/response paths -/

theorem exchange_close_once (B : Amqp σ) (u : String → Except Err ExchangeEntity)
    (r : Request) (b : σ) (raw : String) (ent : ExchangeEntity)
    (hm : r.Method = "POST" ∨ r.Method = "DELETE") (hb : r.Body = Except.ok raw)
    (hu : u raw = Except.ok ent) (hc : (Connect B (World.init b)).1 = none) :
    closeCalls (ExchangeHandler B u r b).trace = 1 ∧
    (ExchangeHandler B u r b).trace.getLast?.map Event.isConnClose = some true := by
  obtain ⟨evs, htr, hcl, -⟩ := Connect_trace B (World.init b)
  rcases hC : Connect B (World.init b) with ⟨e, s1⟩
  rw [hC] at hc htr
  simp only at hc htr
  subst hc
  have hinit : (World.init b).trace = [] := rfl
  rw [hinit, List.nil_append] at htr
  unfold ExchangeHandler
  rcases hm with hm | hm
  · cases h : (B s1.broker (Call.ExchangeDeclare ent.Name ent.Typ ent.Durable ent.AutoDelete
        false ent.NoWait)).2 <;>
      simp [hm, hb, hu, hC, call, h, httpError, httpWrite, htr, hcl, Event.isConnClose]
  · cases h : (B s1.broker (Call.ExchangeDelete ent.Name false false)).2 <;>
      simp [hm, hb, hu, hC, call, h, httpError, httpWrite, htr, hcl, Event.isConnClose]

theorem queue_close_once (B : Amqp σ) (u : String → Except Err QueueEntity)
    (r : Request) (b : σ) (raw : String) (ent : QueueEntity)
    (hm : r.Method = "POST" ∨ r.Method = "DELETE") (hb : r.Body = Except.ok raw)
    (hu : u raw = Except.ok ent) (hc : (Connect B (World.init b)).1 = none) :
    ∃ s, QueueHandler B u r b = Outcome.returned s ∧ closeCalls s.trace = 1 ∧
      s.trace.getLast?.map Event.isConnClose = some true := by
  obtain ⟨evs, htr, hcl, -⟩ := Connect_trace B (World.init b)
  rcases hC : Connect B (World.init b) with ⟨e, s1⟩
  rw [hC] at hc htr
  simp only at hc htr
  subst hc
  have hinit : (World.init b).trace = [] := rfl
  rw [hinit, List.nil_append] at htr
  unfold QueueHandler
  rcases hm with hm | hm
  · cases h : (B s1.broker (Call.QueueDeclare ent.Name ent.Durable ent.AutoDelete
        ent.Exclusive ent.NoWait)).2 <;>
      simp [hm, hb, hu, hC, call, h, httpError, httpWrite, htr, hcl, Event.isConnClose]
  · cases h : (B s1.broker (Call.QueueDelete ent.Name false false false)).2 <;>
      simp [hm, hb, hu, hC, call, h, httpError, httpWrite, htr, hcl, Event.isConnClose]

theorem bind_close_once (B : Amqp σ) (u : String → Except Err QueueBindEntity)
    (r : Request) (b : σ) (raw : String) (ent : QueueBindEntity)
    (hm : r.Method = "POST" ∨ r.Method = "DELETE") (hb : r.Body = Except.ok raw)
    (hu : u raw = Except.ok ent) (hc : (Connect B (World.init b)).1 = none) :
    closeCalls (QueueBindHandler B u r b).trace = 1 ∧
    (QueueBindHandler B u r b).trace.getLast?.map Event.isConnClose = some true := by
  obtain ⟨evs, htr, hcl, -⟩ := Connect_trace B (World.init b)
  rcases hC : Connect B (World.init b) with ⟨e, s1⟩
  rw [hC] at hc htr
  simp only at hc htr
  subst hc
  have hinit : (World.init b).trace = [] := rfl
  rw [hinit, List.nil_append] at htr
  unfold QueueBindHandler
  rcases hm with hm | hm
  · obtain ⟨res, -, htr2, -, hcl2, -⟩ := callEach_calls B
      (fun key => Call.QueueBind ent.Queue key ent.Exchange ent.NoWait)
      (fun _ h => by cases h) ent.Keys s1
    rw [← BindQueue_eq_callEach] at htr2
    rcases hB : BindQueue B ent.Queue ent.Exchange ent.Keys ent.NoWait s1 with ⟨e, s2⟩
    rw [hB] at htr2
    simp only at htr2
    cases e <;>
      simp [hm, hb, hu, hC, hB, call, httpError, httpWrite, htr, htr2, hcl, hcl2,
        Event.isConnClose]
  · obtain ⟨res, -, htr2, -, hcl2, -⟩ := callEach_calls B
      (fun key => Call.QueueUnbind ent.Queue key ent.Exchange)
      (fun _ h => by cases h) ent.Keys s1
    rw [← UnBindQueue_eq_callEach] at htr2
    rcases hB : UnBindQueue B ent.Queue ent.Exchange ent.Keys s1 with ⟨e, s2⟩
    rw [hB] at htr2
    simp only at htr2
    cases e <;>
      simp [hm, hb, hu, hC, hB, call, httpError, httpWrite, htr, htr2, hcl, hcl2,
        Event.isConnClose]

theorem publish_close_once (B : Amqp σ) (u : String → Except Err MessageEntity) (race : Race)
    (r : Request) (b : σ) (raw : String) (ent : MessageEntity)
    (hm : r.Method = "POST") (hb : r.Body = Except.ok raw)
    (hu : u raw = Except.ok ent) (hc : (Connect B (World.init b)).1 = none) :
    closeCalls (PublishHandler B u race r b).trace = 1 ∧
    (PublishHandler B u race r b).trace.getLast?.map Event.isConnClose = some true := by
  obtain ⟨evs, htr, hcl, -⟩ := Connect_trace B (World.init b)
  rcases hC : Connect B (World.init b) with ⟨e, s1⟩
  rw [hC] at hc htr
  simp only at hc htr
  subst hc
  have hinit : (World.init b).trace = [] := rfl
  rw [hinit, List.nil_append] at htr
  unfold PublishHandler
  cases h : (B s1.broker (Call.Publish ent.Exchange ent.Key false false ent.DeliveryMode
      ent.Priority ent.Body)).2 <;> cases race <;>
    simp [hm, hb, hu, hC, call, h, httpError, httpWrite, htr, hcl, Event.isConnClose]

/-- C9. For POST and DELETE on `/exchange`, `/queue` and `/queue/bind` and for POST on
`/publish`: when the body parses and `Connect` succeeds, then on every exit path (success,
failure of the broker call, publish rejection, publish timeout) the trace of the handler
holds exactly one call of `Close`, and it is the handler's last action. -/
theorem close_once_on_every_exit_path (B : Amqp σ)
    (uE : String → Except Err ExchangeEntity) (uQ : String → Except Err QueueEntity)
    (uB : String → Except Err QueueBindEntity) (uM : String → Except Err MessageEntity)
    (race : Race) (r : Request) (b : σ) (raw : String)
    (eE : ExchangeEntity) (eQ : QueueEntity) (eB : QueueBindEntity) (eM : MessageEntity)
    (hm : r.Method = "POST" ∨ r.Method = "DELETE") (hb : r.Body = Except.ok raw)
    (hE : uE raw = Except.ok eE) (hQ : uQ raw = Except.ok eQ)
    (hB : uB raw = Except.ok eB) (hM : uM raw = Except.ok eM)
    (hc : (Connect B (World.init b)).1 = none) :
    (closeCalls (ExchangeHandler B uE r b).trace = 1 ∧
      (ExchangeHandler B uE r b).trace.getLast?.map Event.isConnClose = some true) ∧
    (∃ s, QueueHandler B uQ r b = Outcome.returned s ∧ closeCalls s.trace = 1 ∧
      s.trace.getLast?.map Event.isConnClose = some true) ∧
    (closeCalls (QueueBindHandler B uB r b).trace = 1 ∧
      (QueueBindHandler B uB r b).trace.getLast?.map Event.isConnClose = some true) ∧
    (r.Method = "POST" →
      closeCalls (PublishHandler B uM race r b).trace = 1 ∧
      (PublishHandler B uM race r b).trace.getLast?.map Event.isConnClose = some true) :=
  ⟨exchange_close_once B uE r b raw eE hm hb hE hc,
   queue_close_once B uQ r b raw eQ hm hb hQ hc,
   bind_close_once B uB r b raw eB hm hb hB hc,
   fun hp => publish_close_once B uM race r b raw eM hp hb hM hc⟩

/-- C9, for a POST on a broker that accepts every call. -/
theorem close_once_on_every_exit_path_witness :
    closeCalls (ExchangeHandler okBroker (acceptAs (ExchangeEntity.mk "ex" "topic" true false false))
      (Request.mk "POST" (Except.ok "json") []) ()).trace = 1 ∧
    closeCalls (PublishHandler okBroker (acceptAs (MessageEntity.mk "ex" "key" 1 0 "hello"))
      (Race.returned (Return.mk "NO_ROUTE")) (Request.mk "POST" (Except.ok "json") []) ()).trace
        = 1 :=
  have h := close_once_on_every_exit_path okBroker
    (acceptAs (ExchangeEntity.mk "ex" "topic" true false false))
    (acceptAs (QueueEntity.mk "q" true false false false))
    (acceptAs (QueueBindEntity.mk "q" "ex" false ["a"]))
    (acceptAs (MessageEntity.mk "ex" "key" 1 0 "hello"))
    (Race.returned (Return.mk "NO_ROUTE")) (Request.mk "POST" (Except.ok "json") []) () "json"
    (ExchangeEntity.mk "ex" "topic" true false false) (QueueEntity.mk "q" true false false false)
    (QueueBindEntity.mk "q" "ex" false ["a"]) (MessageEntity.mk "ex" "key" 1 0 "hello")
    (Or.inl rfl) rfl rfl rfl rfl rfl rfl
  ⟨h.1.1, (h.2.2.2 rfl).1⟩

/-! ## Bodies that do not parse -/

/-- C8 as stated fails for `DELETE /publish`: with a body that does not parse the answer is
405, not 500. -/
theorem publish_delete_malformed_is_405 :
    rejectAll MessageEntity "not json" = Except.error "invalid character" ∧
    (PublishHandler okBroker (rejectAll MessageEntity) Race.windowElapsed
      (Request.mk "DELETE" (Except.ok "not json") []) ()).w.status = some 405 ∧
    (PublishHandler okBroker (rejectAll MessageEntity) Race.windowElapsed
      (Request.mk "DELETE" (Except.ok "not json") []) ()).w.status ≠ some 500 := by
  refine ⟨rfl, ?_, ?_⟩ <;> simp [PublishHandler, httpWriteHeader, ResponseWriter.WriteHeader,
    World.init]

/-- C8, amended. For POST and DELETE on `/exchange`, `/queue` and `/queue/bind` and for POST
on `/publish`, a body that cannot be parsed into the expected entity is answered with 500
(the body is the parse error text) and no broker call is made, not even the dial.
`PublishHandler` accepts POST only: a DELETE is answered with 405 whatever its body is, again
without a broker call. -/
theorem malformed_body_no_broker_call (B : Amqp σ)
    (uE : String → Except Err ExchangeEntity) (uQ : String → Except Err QueueEntity)
    (uB : String → Except Err QueueBindEntity) (uM : String → Except Err MessageEntity)
    (race : Race) (r : Request) (b : σ) (raw : String) (eE eQ eB eM : Err)
    (hm : r.Method = "POST" ∨ r.Method = "DELETE") (hb : r.Body = Except.ok raw)
    (hE : uE raw = Except.error eE) (hQ : uQ raw = Except.error eQ)
    (hB : uB raw = Except.error eB) (hM : uM raw = Except.error eM) :
    ((ExchangeHandler B uE r b).w.status = some 500 ∧
      (ExchangeHandler B uE r b).w.body = eE ++ "\n" ∧
      brokerCalls (ExchangeHandler B uE r b).trace = 0) ∧
    (∃ s, QueueHandler B uQ r b = Outcome.returned s ∧ s.w.status = some 500 ∧
      s.w.body = eQ ++ "\n" ∧ brokerCalls s.trace = 0) ∧
    ((QueueBindHandler B uB r b).w.status = some 500 ∧
      (QueueBindHandler B uB r b).w.body = eB ++ "\n" ∧
      brokerCalls (QueueBindHandler B uB r b).trace = 0) ∧
    (r.Method = "POST" →
      (PublishHandler B uM race r b).w.status = some 500 ∧
      (PublishHandler B uM race r b).w.body = eM ++ "\n" ∧
      brokerCalls (PublishHandler B uM race r b).trace = 0) ∧
    (r.Method = "DELETE" →
      (PublishHandler B uM race r b).w.status = some 405 ∧
      brokerCalls (PublishHandler B uM race r b).trace = 0) := by
  refine ⟨?_, ?_, ?_, ?_, ?_⟩
  · simp [ExchangeHandler, hm, hb, hE, httpError, ResponseWriter.Error, ResponseWriter.Write,
      ResponseWriter.WriteHeader, World.init, brokerCalls, Event.isBroker]
  · simp [QueueHandler, hm, hb, hQ, httpError, ResponseWriter.Error, ResponseWriter.Write,
      ResponseWriter.WriteHeader, World.init, brokerCalls, Event.isBroker]
  · simp [QueueBindHandler, hm, hb, hB, httpError, ResponseWriter.Error, ResponseWriter.Write,
      ResponseWriter.WriteHeader, World.init, brokerCalls, Event.isBroker]
  · intro hp
    simp [PublishHandler, hp, hb, hM, httpError, ResponseWriter.Error, ResponseWriter.Write,
      ResponseWriter.WriteHeader, World.init, brokerCalls, Event.isBroker]
  · intro hd
    simp [PublishHandler, hd, httpWriteHeader, ResponseWriter.WriteHeader, World.init,
      brokerCalls, Event.isBroker]

/-- C8 amended, on a DELETE with a body no decoder accepts. -/
theorem malformed_body_no_broker_call_witness :
    (ExchangeHandler okBroker (rejectAll ExchangeEntity)
      (Request.mk "DELETE" (Except.ok "not json") []) ()).w.status = some 500 ∧
    brokerCalls (ExchangeHandler okBroker (rejectAll ExchangeEntity)
      (Request.mk "DELETE" (Except.ok "not json") []) ()).trace = 0 :=
  have h := malformed_body_no_broker_call okBroker (rejectAll ExchangeEntity)
    (rejectAll QueueEntity) (rejectAll QueueBindEntity) (rejectAll MessageEntity)
    Race.windowElapsed (Request.mk "DELETE" (Except.ok "not json") []) () "not json"
    "invalid character" "invalid character" "invalid character" "invalid character"
    (Or.inr rfl) rfl rfl rfl rfl rfl
  ⟨h.1.1, h.1.2.2⟩

/-! ## Subscription failure on `GET /queue` -/

/-- C2. The code at the claim's failing input, in general: on a GET whose `Connect`
succeeded and one of whose subscriptions fails with `err`, the handler answers 500 with
`err` and returns without a single call of `Close`. -/
theorem queue_get_subscribe_failure_no_close (B : Amqp σ)
    (u : String → Except Err QueueEntity) (r : Request) (b : σ) (err : Err)
    (hm : r.Method = "GET") (hc : (Connect B (World.init b)).1 = none)
    (hs : (subscribeAll B r.Form (Connect B (World.init b)).2).1 = some err) :
    ∃ s, QueueHandler B u r b = Outcome.returned s ∧ s.w.status = some 500 ∧
      closeCalls s.trace = 0 ∧ s.trace.getLast? = some (Event.HttpError err 500) := by
  obtain ⟨evs, htr, hcl, -⟩ := Connect_trace B (World.init b)
  have hw := Connect_w B (World.init b)
  rcases hC : Connect B (World.init b) with ⟨e, s1⟩
  rw [hC] at hc htr hs hw
  simp only at hc htr hs hw
  subst hc
  have hinit : (World.init b).trace = [] := rfl
  rw [hinit, List.nil_append] at htr
  obtain ⟨res, -, htr2, hw2, hcl2, -⟩ := callEach_calls B
    (fun name => Call.Consume name "" true false false false) (fun _ h => by cases h) r.Form s1
  rw [← subscribeAll_eq_callEach] at htr2 hw2
  rcases hS : subscribeAll B r.Form s1 with ⟨e, s2⟩
  rw [hS] at htr2 hs hw2
  simp only at htr2 hs hw2
  subst hs
  have hwi : s2.w = { status := none, body := "", sent := "" } := by rw [hw2, hw]; rfl
  unfold QueueHandler
  simp [hm, hC, hS, httpError, htr, htr2, hcl, hcl2, hwi, ResponseWriter.Error,
    ResponseWriter.Write, ResponseWriter.WriteHeader, Event.isConnClose]

/-- C2, at the failing input: `GET /queue?name=jobs&name=missing` on a broker without a
queue `missing`. The handler returns with the 500 and without a call of `Close`. -/
theorem queue_get_subscribe_failure_no_close_witness :
    ∃ s, QueueHandler noQueueBroker (rejectAll QueueEntity)
        (Request.mk "GET" (Except.ok "") ["jobs", "missing"]) () = Outcome.returned s ∧
      s.w.status = some 500 ∧ closeCalls s.trace = 0 ∧
      s.trace.getLast? = some (Event.HttpError "NOT_FOUND - no queue" 500) :=
  queue_get_subscribe_failure_no_close noQueueBroker (rejectAll QueueEntity)
    (Request.mk "GET" (Except.ok "") ["jobs", "missing"]) () "NOT_FOUND - no queue"
    rfl rfl rfl

/-! ## `Close` called again -/

theorem connected_open (W : Amqp σ) (b : σ) :
    (connected W b).broker.closed = false ∧ (connected W b).broker.closeOps = 0 := by
  unfold connected Connect
  cases h1 : (W b Call.Dial).2 <;> cases h2 : (W (W b Call.Dial).1 Call.Channel).2 <;>
    simp [call, libConn, World.init, Conn.fresh, h1, h2]

theorem Close_on_closed (W : Amqp σ) (s : World (Conn σ)) (h : s.broker.closed = true) :
    (Close (libConn W) s).1 = some ErrClosed ∧ (Close (libConn W) s).2.broker = s.broker ∧
    (Close (libConn W) s).2.w = s.w := by
  simp [libConn, h]

theorem closeTimes_on_closed (W : Amqp σ) (k : Nat) (s : World (Conn σ))
    (h : s.broker.closed = true) :
    (closeTimes (libConn W) k s).broker = s.broker ∧ (closeTimes (libConn W) k s).w = s.w := by
  induction k generalizing s with
  | zero => exact ⟨rfl, rfl⟩
  | succ k ih =>
    obtain ⟨-, hb, hw⟩ := Close_on_closed W s h
    obtain ⟨i1, i2⟩ := ih (Close (libConn W) s).2 (by rw [hb]; exact h)
    show (closeTimes (libConn W) k (Close (libConn W) s).2).broker = _ ∧
      (closeTimes (libConn W) k (Close (libConn W) s).2).w = _
    exact ⟨i1.trans hb, i2.trans hw⟩

/-- C3. `Close` is idempotent on a session: after `Connect` and a first `Close` (which sends
the one `connection.close` of the session and shuts the connection down), any number `k` of
further `Close` calls leaves the connection and the broker as the first `Close` left them (no
second `connection.close` is sent) and leaves the response untouched, and a `Close` after them
returns the library's `ErrClosed` instead of failing. -/
theorem close_again_has_no_effect (W : Amqp σ) (b : σ) (k : Nat)
    (hc : (Connect (libConn W) (World.init (Conn.fresh b))).1 = none) :
    (connected W b).broker.closed = false ∧
    (closedOnce W b).broker.closed = true ∧
    (closedOnce W b).broker.closeOps = 1 ∧
    (closeTimes (libConn W) k (closedOnce W b)).broker = (closedOnce W b).broker ∧
    (closeTimes (libConn W) k (closedOnce W b)).broker.closeOps = 1 ∧
    (closeTimes (libConn W) k (closedOnce W b)).w = (closedOnce W b).w ∧
    (Close (libConn W) (closeTimes (libConn W) k (closedOnce W b))).1 = some ErrClosed := by
  have _ := hc
  obtain ⟨o1, o2⟩ := connected_open W b
  have c1 : (closedOnce W b).broker.closed = true := by
    simp [closedOnce, libConn, o1]
  have c2 : (closedOnce W b).broker.closeOps = 1 := by
    simp [closedOnce, libConn, o1, o2]
  obtain ⟨t1, t2⟩ := closeTimes_on_closed W k (closedOnce W b) c1
  refine ⟨o1, c1, c2, t1, by rw [t1]; exact c2, t2, ?_⟩
  exact (Close_on_closed W _ (by rw [t1]; exact c1)).1

/-- C3, on `Connect`, `Close` and two further `Close` calls: one `connection.close` in all. -/
theorem close_again_has_no_effect_witness :
    (closeTimes (libConn okBroker) 2 (closedOnce okBroker ())).broker.closeOps = 1 ∧
    (Close (libConn okBroker) (closeTimes (libConn okBroker) 2 (closedOnce okBroker ()))).1
      = some ErrClosed :=
  have h := close_again_has_no_effect okBroker () 2 rfl
  ⟨h.2.2.2.2.1, h.2.2.2.2.2.2⟩

/-! ## `/queue/bind` -/

/-- C10. `BindQueue` (and likewise `UnBindQueue`) makes one bind (unbind) call per key, in
list order, for the first `results.length` keys: every call but the last one made returned
no error; when an error is returned it is the error of the last call made, and the keys after
it were not attempted; `nil` is returned exactly when every call succeeded, and then every key
was called. With an empty key list, on a parsed body and a successful `Connect`, the handler
makes no bind (unbind) call and answers 200 `bind queue ok` (`unbind queue ok`). -/
theorem bind_unbind_one_call_per_key (B : Amqp σ)
    (u : String → Except Err QueueBindEntity) (r : Request) (b : σ) (raw : String)
    (entity : QueueBindEntity) (queue exchange : String) (keys : List String) (nowait : Bool)
    (s : World σ)
    (hb : r.Body = Except.ok raw) (hu : u raw = Except.ok entity) (hk : entity.Keys = [])
    (hc : (Connect B (World.init b)).1 = none) :
    (∃ results : List (Option Err),
      results.length ≤ keys.length ∧
      (BindQueue B queue exchange keys nowait s).2.trace
        = s.trace ++ callEvents (fun key => Call.QueueBind queue key exchange nowait) keys results ∧
      (∀ res ∈ results.dropLast, res = none) ∧
      ((BindQueue B queue exchange keys nowait s).1 = none ↔ ∀ res ∈ results, res = none) ∧
      ((BindQueue B queue exchange keys nowait s).1 = none → results.length = keys.length) ∧
      (∀ err, (BindQueue B queue exchange keys nowait s).1 = some err →
        results.getLast? = some (some err))) ∧
    (∃ results : List (Option Err),
      results.length ≤ keys.length ∧
      (UnBindQueue B queue exchange keys s).2.trace
        = s.trace ++ callEvents (fun key => Call.QueueUnbind queue key exchange) keys results ∧
      (∀ res ∈ results.dropLast, res = none) ∧
      ((UnBindQueue B queue exchange keys s).1 = none ↔ ∀ res ∈ results, res = none) ∧
      ((UnBindQueue B queue exchange keys s).1 = none → results.length = keys.length) ∧
      (∀ err, (UnBindQueue B queue exchange keys s).1 = some err →
        results.getLast? = some (some err))) ∧
    (BindQueue B queue exchange [] nowait s = (none, s) ∧
      UnBindQueue B queue exchange [] s = (none, s)) ∧
    (r.Method = "POST" →
      (QueueBindHandler B u r b).w.status = some 200 ∧
      (QueueBindHandler B u r b).w.body = "bind queue ok" ∧
      (QueueBindHandler B u r b).trace
        = [Event.Broker Call.Dial none, Event.Broker Call.Channel none,
           Event.Write "bind queue ok",
           Event.Broker Call.ConnClose
             (B (Connect B (World.init b)).2.broker Call.ConnClose).2]) ∧
    (r.Method = "DELETE" →
      (QueueBindHandler B u r b).w.status = some 200 ∧
      (QueueBindHandler B u r b).w.body = "unbind queue ok" ∧
      (QueueBindHandler B u r b).trace
        = [Event.Broker Call.Dial none, Event.Broker Call.Channel none,
           Event.Write "unbind queue ok",
           Event.Broker Call.ConnClose
             (B (Connect B (World.init b)).2.broker Call.ConnClose).2]) := by
  have key : ∀ (mk : String → Call), (∀ k, mk k ≠ Call.ConnClose) →
      ∃ results : List (Option Err),
        results.length ≤ keys.length ∧
        (callEach B mk keys s).2.trace = s.trace ++ callEvents mk keys results ∧
        (∀ res ∈ results.dropLast, res = none) ∧
        ((callEach B mk keys s).1 = none ↔ ∀ res ∈ results, res = none) ∧
        ((callEach B mk keys s).1 = none → results.length = keys.length) ∧
        (∀ err, (callEach B mk keys s).1 = some err → results.getLast? = some (some err)) := by
    intro mk hmk
    obtain ⟨res, hlen, htr, -, -, -, hdl, hnone, hsome⟩ := callEach_calls B mk hmk keys s
    refine ⟨res, hlen, htr, hdl, ⟨fun h => (hnone h).2, fun hall => ?_⟩,
      fun h => (hnone h).1, hsome⟩
    cases he : (callEach B mk keys s).1 with
    | none => rfl
    | some err =>
      have h1 := hsome err he
      have h2 : some err ∈ res := List.mem_of_getLast?_eq_some h1
      exact absurd (hall _ h2) (by simp)
  have htr := Connect_ok_trace B (World.init b) hc
  have hw := Connect_w B (World.init b)
  rcases hC : Connect B (World.init b) with ⟨e, s1⟩
  rw [hC] at hc htr hw
  simp only at hc htr hw
  subst hc
  have hwi : s1.w = { status := none, body := "", sent := "" } := hw
  have hinit : (World.init b).trace = [] := rfl
  rw [hinit, List.nil_append] at htr
  refine ⟨?_, ?_, ⟨rfl, rfl⟩, ?_, ?_⟩
  · rw [BindQueue_eq_callEach]
    exact key _ (fun _ h => by cases h)
  · rw [UnBindQueue_eq_callEach]
    exact key _ (fun _ h => by cases h)
  · intro hm
    simp [QueueBindHandler, hm, hb, hu, hk, hC, BindQueue, httpWrite, call, htr, hwi,
      ResponseWriter.Write, ResponseWriter.WriteHeader]
  · intro hm
    simp [QueueBindHandler, hm, hb, hu, hk, hC, UnBindQueue, httpWrite, call, htr, hwi,
      ResponseWriter.Write, ResponseWriter.WriteHeader]

/-- C10, with keys `a`, `bad`, `c` on a broker that refuses key `bad` (the loop stops after
the second call), and an empty key list in a POST. -/
theorem bind_unbind_one_call_per_key_witness :
    (BindQueue badKeyBroker "q" "ex" ["a", "bad", "c"] false (World.init ())).1
      = some "bind refused" ∧
    (BindQueue badKeyBroker "q" "ex" ["a", "bad", "c"] false (World.init ())).2.trace
      = [Event.Broker (Call.QueueBind "q" "a" "ex" false) none,
         Event.Broker (Call.QueueBind "q" "bad" "ex" false) (some "bind refused")] ∧
    (QueueBindHandler badKeyBroker (acceptAs (QueueBindEntity.mk "q" "ex" false []))
      (Request.mk "POST" (Except.ok "json") []) ()).w.body = "bind queue ok" :=
  have h := bind_unbind_one_call_per_key badKeyBroker
    (acceptAs (QueueBindEntity.mk "q" "ex" false []))
    (Request.mk "POST" (Except.ok "json") []) () "json" (QueueBindEntity.mk "q" "ex" false [])
    "q" "ex" ["a", "bad", "c"] false (World.init ()) rfl rfl rfl rfl
  ⟨by decide, by decide, (h.2.2.2.1 rfl).2.1⟩

/-! ## The streaming loop -/

theorem join_cons (a : String) (l : List String) : String.join (a :: l) = a ++ String.join l := by
  apply String.ext
  simp [String.join_eq]

theorem loopBody_w (b : String) (s t : World σ) (h : s.w = t.w) :
    (loopBody b s).w = (loopBody b t).w := by
  simp [loopBody, httpFlush, httpWrite, h]

theorem streamLoop_append (l : List String) (b : String) (s : World σ) :
    streamLoop (l ++ [b]) s = loopBody b (streamLoop l s) := by
  induction l generalizing s with
  | nil => rfl
  | cons a l ih => exact ih (loopBody a s)

theorem streamLoop_facts (msgs : List String) (s : World σ)
    (hst : s.w.status = some 200) (hsent : s.w.sent = s.w.body) :
    (streamLoop msgs s).w.body = s.w.body ++ String.join (msgs.map (fun m => m ++ "\n")) ∧
    (streamLoop msgs s).w.sent = (streamLoop msgs s).w.body ∧
    (streamLoop msgs s).w.status = some 200 ∧
    (streamLoop msgs s).trace = s.trace ++
      msgs.flatMap (fun m => [Event.Recv m, Event.Write (m ++ "\n"), Event.Flush]) ∧
    (streamLoop msgs s).broker = s.broker := by
  induction msgs generalizing s with
  | nil => simp [streamLoop, String.join, hst, hsent]
  | cons m rest ih =>
    have h1 : (loopBody m s).w.status = some 200 := by
      simp [loopBody, httpFlush, httpWrite, ResponseWriter.Flush, ResponseWriter.Write,
        ResponseWriter.WriteHeader, hst]
    have h2 : (loopBody m s).w.sent = (loopBody m s).w.body := by
      simp [loopBody, httpFlush, httpWrite, ResponseWriter.Flush, ResponseWriter.Write,
        ResponseWriter.WriteHeader, hst]
    have h3 : (loopBody m s).w.body = s.w.body ++ (m ++ "\n") := by
      simp [loopBody, httpFlush, httpWrite, ResponseWriter.Flush, ResponseWriter.Write,
        ResponseWriter.WriteHeader, hst]
    have h4 : (loopBody m s).trace
        = s.trace ++ [Event.Recv m, Event.Write (m ++ "\n"), Event.Flush] := by
      simp [loopBody, httpFlush, httpWrite]
    obtain ⟨i1, i2, i3, i4, i5⟩ := ih (loopBody m s) h1 h2
    refine ⟨?_, i2, i3, ?_, ?_⟩
    · show (streamLoop rest (loopBody m s)).w.body = _
      rw [i1, h3, List.map_cons, join_cons, String.append_assoc]
    · show (streamLoop rest (loopBody m s)).trace = _
      rw [i4, h4]
      simp
    · show (streamLoop rest (loopBody m s)).broker = _
      rw [i5]
      rfl

theorem queue_streaming_entry (B : Amqp σ) (u : String → Except Err QueueEntity) (r : Request)
    (b : σ) (s : World σ) (n : Nat) (h : QueueHandler B u r b = Outcome.streaming s n) :
    n = r.Form.length ∧ s.w = { status := some 200, body := "", sent := "" } ∧
    closeCalls s.trace = 0 ∧
    s.trace.getLast? = some Event.Flush := by
  obtain ⟨evs, htr, hcl, -⟩ := Connect_trace B (World.init b)
  have hw := Connect_w B (World.init b)
  obtain ⟨res, -, htr2, hw2, hcl2, -⟩ := callEach_calls B
    (fun name => Call.Consume name "" true false false false) (fun _ h => by cases h) r.Form
    (Connect B (World.init b)).2
  rw [← subscribeAll_eq_callEach] at htr2 hw2
  unfold QueueHandler at h
  simp only at h
  split at h
  · split at h
    · cases h
    · split at h
      · cases h
      · split at h <;> cases h
  · split at h
    · rcases hC : Connect B (World.init b) with ⟨e, s1⟩
      rw [hC] at h htr hw htr2 hw2
      simp only at h htr hw htr2 hw2
      cases e with
      | some e => simp at h
      | none =>
        simp only at h
        rcases hS : subscribeAll B r.Form s1 with ⟨e2, s2⟩
        rw [hS] at h htr2 hw2
        simp only at htr2 hw2
        cases e2 with
        | some e2 => simp at h
        | none =>
          simp only [Outcome.streaming.injEq] at h
          obtain ⟨h1, h2⟩ := h
          subst h1 h2
          have hwi : s2.w = { status := none, body := "", sent := "" } := by
            rw [hw2, hw]; rfl
          have hinit : (World.init b).trace = [] := rfl
          rw [hinit, List.nil_append] at htr
          simp [httpFlush, httpWrite, hwi, htr2, htr, hcl, hcl2, ResponseWriter.Flush,
            ResponseWriter.Write, ResponseWriter.WriteHeader, Event.isConnClose]
    · cases h

/-- C7. In the streaming loop of `GET /queue`, entered by the handler with state `s`, for
every finite sequence of messages taken from the fan-in channel: the bytes written to the
response are exactly the concatenation, in order, of each message body followed by one
newline; in the trace every message taken is followed by the write of its frame and then a
flush, before the next message is taken; and nothing written is left unflushed. -/
theorem stream_frames_and_flushes (B : Amqp σ) (u : String → Except Err QueueEntity)
    (r : Request) (b : σ) (s : World σ) (n : Nat) (msgs : List String)
    (h : QueueHandler B u r b = Outcome.streaming s n) :
    (streamLoop msgs s).w.body = String.join (msgs.map (fun m => m ++ "\n")) ∧
    (streamLoop msgs s).trace = s.trace ++
      msgs.flatMap (fun m => [Event.Recv m, Event.Write (m ++ "\n"), Event.Flush]) ∧
    (streamLoop msgs s).w.sent = (streamLoop msgs s).w.body := by
  obtain ⟨-, hw, -, -⟩ := queue_streaming_entry B u r b s n h
  obtain ⟨h1, h2, -, h4, -⟩ := streamLoop_facts msgs s (by rw [hw]) (by rw [hw])
  refine ⟨?_, h4, h2⟩
  rw [h1, hw]
  apply String.ext
  simp

/-- C7, on two messages from a request for queues `a` and `b`. -/
theorem stream_frames_and_flushes_witness :
    (streamLoop ["m1", "m2"] (QueueHandler okBroker (rejectAll QueueEntity)
      (Request.mk "GET" (Except.ok "") ["a", "b"]) ()).world).w.body = "m1\nm2\n" :=
  (stream_frames_and_flushes okBroker (rejectAll QueueEntity)
    (Request.mk "GET" (Except.ok "") ["a", "b"]) () _ 2 ["m1", "m2"] rfl).1.trans (by decide)

/-! ## The fan-in -/

@[simp] theorem setConsumer_same (f : Nat → Consumer) (i : Nat) (c : Consumer) :
    setConsumer f i c i = c := by
  simp [setConsumer]

theorem setConsumer_ne (f : Nat → Consumer) (i j : Nat) (c : Consumer) (h : j ≠ i) :
    setConsumer f i c j = f j := by
  simp [setConsumer, h]

theorem framesOf_append_same (i : Nat) (b : String) (fs : List (Nat × String)) :
    framesOf i (fs ++ [(i, b)]) = framesOf i fs ++ [b] := by
  simp [framesOf, List.filter_append]

theorem framesOf_append_ne (i j : Nat) (b : String) (fs : List (Nat × String)) (h : j ≠ i) :
    framesOf j (fs ++ [(i, b)]) = framesOf j fs := by
  simp [framesOf, List.filter_append, List.filter_cons, Ne.symm h]

/-- What the frames written for consumer `j`, the delivery its goroutine holds and the
deliveries still in its channel add up to. -/
theorem step_frames (B : Amqp σ) (a : Action) (st st1 : Bridge σ)
    (h : step B a st = some st1)
    (inv : ∀ j, framesOf j st.frames ++ (st.consumers j).fwd.holding ++ (st.consumers j).pending
      = (st.consumers j).delivered) :
    ∀ j, framesOf j st1.frames ++ (st1.consumers j).fwd.holding ++ (st1.consumers j).pending
      = (st1.consumers j).delivered := by
  intro j
  have hj := inv j
  cases a with
  | deliver i b =>
    simp only [step] at h
    split at h
    · cases h
      by_cases hji : j = i
      · subst hji
        simp only [setConsumer_same]
        rw [← hj]
        simp
      · simpa [setConsumer_ne _ _ _ _ hji] using hj
    · cases h
  | cancel i =>
    simp only [step] at h
    split at h
    · cases h
      by_cases hji : j = i
      · subst hji
        simpa using hj
      · simpa [setConsumer_ne _ _ _ _ hji] using hj
    · cases h
  | take i =>
    simp only [step] at h
    split at h
    · split at h
      · rename_i d rest hf hp
        cases h
        by_cases hji : j = i
        · subst hji
          simp only [setConsumer_same]
          rw [← hj, hf, hp]
          simp [Fwd.holding]
        · simpa [setConsumer_ne _ _ _ _ hji] using hj
      · cases h
    · cases h
  | observeEnd i =>
    simp only [step] at h
    split at h
    · split at h
      · rename_i hf hp hc
        cases h
        by_cases hji : j = i
        · subst hji
          simp only [setConsumer_same]
          rw [← hj, hf, hp]
          simp [Fwd.holding]
        · simpa [setConsumer_ne _ _ _ _ hji] using hj
      · cases h
    · cases h
  | forward i =>
    simp only [step] at h
    split at h
    · split at h
      · rename_i b hf
        cases h
        by_cases hji : j = i
        · subst hji
          simp only [setConsumer_same, framesOf_append_same]
          rw [← hj, hf]
          simp [Fwd.holding]
        · simpa [setConsumer_ne _ _ _ _ hji, framesOf_append_ne _ _ _ _ hji] using hj
      · cases h
    · cases h
  | disconnect =>
    simp only [step] at h
    split at h
    · cases h
      exact hj
    · cases h
  | watcherClose =>
    simp only [step] at h
    split at h
    · cases h
      exact hj
    · cases h

theorem loopBody_closeCalls (b : String) (s : World σ) :
    closeCalls (loopBody b s).trace = closeCalls s.trace := by
  simp [loopBody, httpFlush, httpWrite, Event.isConnClose]

/-- The response writer of the bridge is the one the loop produces on the frames forwarded. -/
theorem step_writer (B : Amqp σ) (a : Action) (st st1 : Bridge σ) (s0 : World σ)
    (h : step B a st = some st1)
    (inv : st.world.w = (streamLoop (st.frames.map Prod.snd) s0).w) :
    st1.world.w = (streamLoop (st1.frames.map Prod.snd) s0).w := by
  cases a with
  | deliver i b =>
    simp only [step] at h
    split at h <;> cases h
    exact inv
  | cancel i =>
    simp only [step] at h
    split at h <;> cases h
    exact inv
  | take i =>
    simp only [step] at h
    split at h
    · split at h <;> cases h
      exact inv
    · cases h
  | observeEnd i =>
    simp only [step] at h
    split at h
    · split at h <;> cases h
      exact inv
    · cases h
  | forward i =>
    simp only [step] at h
    split at h
    · split at h
      · cases h
        simp only [List.map_append, List.map_cons, List.map_nil, streamLoop_append]
        exact loopBody_w _ _ _ inv
      · cases h
    · cases h
  | disconnect =>
    simp only [step] at h
    split at h <;> cases h
    exact inv
  | watcherClose =>
    simp only [step] at h
    split at h <;> cases h
    simpa using inv

/-- The watcher alone calls `Close`: the number of `Close` calls follows the
watcher, and once it has closed the session every delivery channel is closed. -/
theorem step_watcher (B : Amqp σ) (a : Action) (st st1 : Bridge σ) (c0 : Nat)
    (h : step B a st = some st1)
    (inv : closeCalls st.world.trace = c0 + expectedCloses st.watcher ∧
      (st.watcher = Watcher.closed → ∀ j, (st.consumers j).closed = true)) :
    closeCalls st1.world.trace = c0 + expectedCloses st1.watcher ∧
      (st1.watcher = Watcher.closed → ∀ j, (st1.consumers j).closed = true) := by
  obtain ⟨i1, i2⟩ := inv
  cases a with
  | deliver i b =>
    simp only [step] at h
    split at h
    · rename_i hc
      cases h
      refine ⟨i1, fun hw j => ?_⟩
      have := i2 hw i
      rw [hc.2] at this
      cases this
    · cases h
  | cancel i =>
    simp only [step] at h
    split at h
    · cases h
      refine ⟨i1, fun hw j => ?_⟩
      by_cases hji : j = i
      · subst hji; simp
      · simpa [setConsumer_ne _ _ _ _ hji] using i2 hw j
    · cases h
  | take i =>
    simp only [step] at h
    split at h
    · split at h
      · cases h
        refine ⟨i1, fun hw j => ?_⟩
        by_cases hji : j = i
        · subst hji; simpa using i2 hw j
        · simpa [setConsumer_ne _ _ _ _ hji] using i2 hw j
      · cases h
    · cases h
  | observeEnd i =>
    simp only [step] at h
    split at h
    · split at h
      · cases h
        refine ⟨i1, fun hw j => ?_⟩
        by_cases hji : j = i
        · subst hji; simpa using i2 hw j
        · simpa [setConsumer_ne _ _ _ _ hji] using i2 hw j
      · cases h
    · cases h
  | forward i =>
    simp only [step] at h
    split at h
    · split at h
      · cases h
        refine ⟨by simpa [loopBody_closeCalls] using i1, fun hw j => ?_⟩
        by_cases hji : j = i
        · subst hji; simpa using i2 hw j
        · simpa [setConsumer_ne _ _ _ _ hji] using i2 hw j
      · cases h
    · cases h
  | disconnect =>
    simp only [step] at h
    split at h
    · rename_i hw
      cases h
      refine ⟨?_, fun hw2 => by cases hw2⟩
      rw [hw] at i1
      simpa [expectedCloses] using i1
    · cases h
  | watcherClose =>
    simp only [step] at h
    split at h
    · rename_i hw
      cases h
      rw [hw] at i1
      refine ⟨?_, fun _ j => rfl⟩
      simp [expectedCloses, Event.isConnClose] at i1 ⊢
      omega
    · cases h

theorem step_watcher_moves (B : Amqp σ) (a : Action) (st st1 : Bridge σ)
    (h : step B a st = some st1) :
    (st.watcher ≠ Watcher.waiting → st1.watcher ≠ Watcher.waiting) ∧
    (a = Action.disconnect → st1.watcher ≠ Watcher.waiting) ∧
    st1.n = st.n := by
  cases a with
  | deliver i b =>
    simp only [step] at h
    split at h <;> cases h
    simp
  | cancel i =>
    simp only [step] at h
    split at h <;> cases h
    simp
  | take i =>
    simp only [step] at h
    split at h
    · split at h <;> cases h
      simp
    · cases h
  | observeEnd i =>
    simp only [step] at h
    split at h
    · split at h <;> cases h
      simp
    · cases h
  | forward i =>
    simp only [step] at h
    split at h
    · split at h <;> cases h
      simp
    · cases h
  | disconnect =>
    simp only [step] at h
    split at h <;> cases h
    simp
  | watcherClose =>
    simp only [step] at h
    split at h <;> cases h
    simp

theorem run_invariant (B : Amqp σ) (P : Bridge σ → Prop)
    (hstep : ∀ a st st1, step B a st = some st1 → P st → P st1)
    (acts : List Action) (st st1 : Bridge σ) (h : run B acts st = some st1) (h0 : P st) :
    P st1 := by
  induction acts generalizing st with
  | nil =>
    simp only [run, Option.some.injEq] at h
    exact h ▸ h0
  | cons a rest ih =>
    simp only [run] at h
    split at h
    · cases h
    · rename_i st2 hs
      exact ih st2 h (hstep a st st2 hs h0)

theorem run_disconnected (B : Amqp σ) (acts : List Action) (st st1 : Bridge σ)
    (h : run B acts st = some st1)
    (hd : st.watcher ≠ Watcher.waiting ∨ Action.disconnect ∈ acts) :
    st1.watcher ≠ Watcher.waiting := by
  induction acts generalizing st with
  | nil =>
    simp only [run, Option.some.injEq] at h
    subst h
    rcases hd with hd | hd
    · exact hd
    · cases hd
  | cons a rest ih =>
    simp only [run] at h
    split at h
    · cases h
    · rename_i st2 hs
      obtain ⟨m1, m2, -⟩ := step_watcher_moves B a st st2 hs
      apply ih st2 h
      rcases hd with hd | hd
      · exact Or.inl (m1 hd)
      · rcases List.mem_cons.1 hd with hd | hd
        · exact Or.inl (m2 hd.symm)
        · exact Or.inr hd

/-- The deliveries logged for consumer `j` are the deliveries put on its channel. -/
theorem step_log (B : Amqp σ) (a : Action) (st st1 : Bridge σ)
    (h : step B a st = some st1)
    (inv : ∀ j, framesOf j st.log = (st.consumers j).delivered) :
    ∀ j, framesOf j st1.log = (st1.consumers j).delivered := by
  intro j
  have hj := inv j
  cases a with
  | deliver i b =>
    simp only [step] at h
    split at h
    · cases h
      by_cases hji : j = i
      · subst hji
        simp only [setConsumer_same, framesOf_append_same]
        rw [hj]
      · simpa [setConsumer_ne _ _ _ _ hji, framesOf_append_ne _ _ _ _ hji] using hj
    · cases h
  | cancel i =>
    simp only [step] at h
    split at h
    · cases h
      by_cases hji : j = i
      · subst hji
        simpa using hj
      · simpa [setConsumer_ne _ _ _ _ hji] using hj
    · cases h
  | take i =>
    simp only [step] at h
    split at h
    · split at h
      · cases h
        by_cases hji : j = i
        · subst hji
          simpa using hj
        · simpa [setConsumer_ne _ _ _ _ hji] using hj
      · cases h
    · cases h
  | observeEnd i =>
    simp only [step] at h
    split at h
    · split at h
      · cases h
        by_cases hji : j = i
        · subst hji
          simpa using hj
        · simpa [setConsumer_ne _ _ _ _ hji] using hj
      · cases h
    · cases h
  | forward i =>
    simp only [step] at h
    split at h
    · split at h
      · cases h
        by_cases hji : j = i
        · subst hji
          simpa using hj
        · simpa [setConsumer_ne _ _ _ _ hji] using hj
      · cases h
    · cases h
  | disconnect =>
    simp only [step] at h
    split at h
    · cases h
      exact hj
    · cases h
  | watcherClose =>
    simp only [step] at h
    split at h
    · cases h
      exact hj
    · cases h

theorem ofQueue_eq_framesOf (names : List String) (q : String) (i : Nat)
    (hq : ∀ j : Nat, names[j]? = some q ↔ j = i) (l : List (Nat × String)) :
    ofQueue names q l = framesOf i l := by
  unfold ofQueue framesOf
  congr 1
  apply List.filter_congr
  intro f _
  exact decide_eq_decide.2 (hq f.1)

/-- C6 as stated fails when a queue is named twice: on `GET /queue?name=a&name=a` the
request opens two consumers on `a`; the broker delivers `m1` to the first and then `m2` to the
second, and the loop writes the frame of `m2` before the frame of `m1`. The frames written
for queue `a` are not a prefix of the deliveries the broker made on `a`. -/
theorem same_queue_twice_out_of_order :
    ∃ s st,
      QueueHandler okBroker (rejectAll QueueEntity)
        (Request.mk "GET" (Except.ok "") ["a", "a"]) () = Outcome.streaming s 2 ∧
      run okBroker [Action.deliver 0 "m1", Action.deliver 1 "m2", Action.take 0, Action.take 1,
        Action.forward 1, Action.forward 0] (Bridge.init s 2) = some st ∧
      ofQueue ["a", "a"] "a" st.log = ["m1", "m2"] ∧
      ofQueue ["a", "a"] "a" st.frames = ["m2", "m1"] ∧
      st.world.w.body = "m2\nm1\n" ∧
      ¬ (ofQueue ["a", "a"] "a" st.frames <+: ofQueue ["a", "a"] "a" st.log) :=
  ⟨_, _, rfl, rfl, by decide, by decide, by decide, by decide⟩

/-- C6, amended. For a `GET /queue` request naming any list of queues, in every state the
fan-in reaches from the entry of the streaming loop: for each consumer (the request opens one
per queue name it lists) the frames written for it, then the delivery its forwarding goroutine
holds, then the deliveries waiting in its channel are exactly the deliveries the broker made
to it; so the frames of one consumer are a prefix of the deliveries to it, in order, none
twice and none skipped. Hence for every queue the request names exactly once, the frames
written for that queue are a prefix of the deliveries the broker made on it. The response
body is the frames in the order written, whatever their interleaving across consumers. -/
theorem per_queue_order_preserved (B : Amqp σ) (u : String → Except Err QueueEntity)
    (r : Request) (b : σ) (s : World σ) (n : Nat) (acts : List Action) (st : Bridge σ)
    (h0 : QueueHandler B u r b = Outcome.streaming s n)
    (hr : run B acts (Bridge.init s n) = some st) :
    (∀ i, framesOf i st.frames ++ (st.consumers i).fwd.holding ++ (st.consumers i).pending
      = (st.consumers i).delivered) ∧
    (∀ i, framesOf i st.log = (st.consumers i).delivered) ∧
    (∀ i, framesOf i st.frames <+: framesOf i st.log) ∧
    (∀ (i : Nat) (q : String), (∀ j : Nat, r.Form[j]? = some q ↔ j = i) →
      ofQueue r.Form q st.frames <+: ofQueue r.Form q st.log) ∧
    st.world.w.body = String.join (st.frames.map (fun f => f.2 ++ "\n")) := by
  have h1 := run_invariant B
    (fun st => ∀ j, framesOf j st.frames ++ (st.consumers j).fwd.holding
      ++ (st.consumers j).pending = (st.consumers j).delivered)
    (fun a st st1 hs hp => step_frames B a st st1 hs hp) acts _ st hr
    (by intro j; simp [Bridge.init, framesOf, Fwd.holding])
  have h2 := run_invariant B
    (fun st => st.world.w = (streamLoop (st.frames.map Prod.snd) s).w)
    (fun a st st1 hs hp => step_writer B a st st1 s hs hp) acts _ st hr
    (by simp [Bridge.init, streamLoop])
  have h3 := run_invariant B
    (fun st => ∀ j, framesOf j st.log = (st.consumers j).delivered)
    (fun a st st1 hs hp => step_log B a st st1 hs hp) acts _ st hr
    (by intro j; simp [Bridge.init, framesOf])
  obtain ⟨-, hw, -, -⟩ := queue_streaming_entry B u r b s n h0
  obtain ⟨f1, -⟩ := streamLoop_facts (st.frames.map Prod.snd) s (by rw [hw]) (by rw [hw])
  have hp : ∀ i, framesOf i st.frames <+: framesOf i st.log := by
    intro i
    rw [h3 i, ← h1 i, List.append_assoc]
    exact List.prefix_append _ _
  refine ⟨h1, h3, hp, fun i q hq => ?_, ?_⟩
  · rw [ofQueue_eq_framesOf r.Form q i hq, ofQueue_eq_framesOf r.Form q i hq]
    exact hp i
  · rw [h2, f1, hw, List.map_map]
    apply String.ext
    simp [Function.comp_def]

/-- C6 amended, on a run with queues `a` and `b` in which the delivery of `b` is written
between the two deliveries of `a`. -/
theorem per_queue_order_preserved_witness :
    ∃ st, run okBroker
        [Action.deliver 0 "a1", Action.deliver 0 "a2", Action.deliver 1 "b1", Action.take 0,
         Action.take 1, Action.forward 0, Action.forward 1, Action.take 0, Action.forward 0]
        (Bridge.init (QueueHandler okBroker (rejectAll QueueEntity)
          (Request.mk "GET" (Except.ok "") ["a", "b"]) ()).world 2) = some st ∧
      st.frames = [(0, "a1"), (1, "b1"), (0, "a2")] ∧
      ofQueue ["a", "b"] "a" st.frames <+: ofQueue ["a", "b"] "a" st.log :=
  ⟨_, rfl, rfl,
    (per_queue_order_preserved okBroker (rejectAll QueueEntity)
      (Request.mk "GET" (Except.ok "") ["a", "b"]) () _ 2
      [Action.deliver 0 "a1", Action.deliver 0 "a2", Action.deliver 1 "b1", Action.take 0,
       Action.take 1, Action.forward 0, Action.forward 1, Action.take 0, Action.forward 0]
      _ rfl rfl).2.2.2.1 0 "a" (fun j => by rcases j with _ | _ | j <;> simp)⟩

/-- C5. For a `GET /queue` request in its streaming loop, in every state reached: no `Close`
has been called while the client has not disconnected; once the disconnect signal has fired
(`disconnect` is in the schedule) the watcher is past its wait, its next step `rabbit.Close()`
can always be taken, and after it `Close` has been called exactly once on the session and
every delivery channel opened for the request is closed. -/
theorem disconnect_closes_session (B : Amqp σ) (u : String → Except Err QueueEntity)
    (r : Request) (b : σ) (s : World σ) (n : Nat) (acts : List Action) (st : Bridge σ)
    (h0 : QueueHandler B u r b = Outcome.streaming s n)
    (hr : run B acts (Bridge.init s n) = some st) :
    (Action.disconnect ∈ acts → st.watcher = Watcher.notified ∨ st.watcher = Watcher.closed) ∧
    (st.watcher = Watcher.waiting → closeCalls st.world.trace = 0) ∧
    (st.watcher = Watcher.notified →
      ∃ st1, step B Action.watcherClose st = some st1 ∧ st1.watcher = Watcher.closed ∧
        closeCalls st1.world.trace = 1 ∧
        st1.world.trace.getLast?.map Event.isConnClose = some true ∧
        ∀ i, (st1.consumers i).closed = true) ∧
    (st.watcher = Watcher.closed →
      closeCalls st.world.trace = 1 ∧ ∀ i, (st.consumers i).closed = true) := by
  obtain ⟨-, -, hcl, -⟩ := queue_streaming_entry B u r b s n h0
  obtain ⟨i1, i2⟩ := run_invariant B
    (fun st => closeCalls st.world.trace = 0 + expectedCloses st.watcher ∧
      (st.watcher = Watcher.closed → ∀ j, (st.consumers j).closed = true))
    (fun a st st1 hs hp => step_watcher B a st st1 0 hs hp) acts _ st hr
    (by simp [Bridge.init, expectedCloses, hcl])
  refine ⟨fun hd => ?_, fun hw => ?_, fun hw => ?_, fun hw => ?_⟩
  · have := run_disconnected B acts _ st hr (Or.inr hd)
    cases hw : st.watcher
    · exact absurd hw this
    · exact Or.inl rfl
    · exact Or.inr rfl
  · simpa [hw, expectedCloses] using i1
  · rw [hw] at i1
    refine ⟨{ st with world := (Close B st.world).2,
                      consumers := fun j => ({ st.consumers j with closed := true }),
                      watcher := Watcher.closed },
      by simp only [step, hw], rfl, ?_, ?_, fun _ => rfl⟩
    · simp [expectedCloses, Event.isConnClose] at i1 ⊢
      exact i1
    · simp [Event.isConnClose]
  · rw [hw] at i1
    exact ⟨by simpa [expectedCloses] using i1, i2 hw⟩

/-- C5, on a run in which the client disconnects while a delivery is being forwarded. -/
theorem disconnect_closes_session_witness :
    ∃ st, run okBroker
        [Action.deliver 0 "a1", Action.take 0, Action.disconnect, Action.watcherClose]
        (Bridge.init (QueueHandler okBroker (rejectAll QueueEntity)
          (Request.mk "GET" (Except.ok "") ["a", "b"]) ()).world 2) = some st ∧
      st.watcher = Watcher.closed ∧ closeCalls st.world.trace = 1 :=
  ⟨_, rfl, rfl,
    ((disconnect_closes_session okBroker (rejectAll QueueEntity)
      (Request.mk "GET" (Except.ok "") ["a", "b"]) () _ 2
      [Action.deliver 0 "a1", Action.take 0, Action.disconnect, Action.watcherClose]
      _ rfl rfl).2.2.2 rfl).1⟩

/-- C4. The code at the claim's failing input: `GET /queue?name=a&name=b` on a broker that
accepts every call; the delivery channel of `a` is closed and its forwarding goroutine
observes it, then `b` delivers `m`. The goroutine of `a` is in `done <- nil` and can take no
further step, `Close` has not been called and cannot be called (the watcher still waits for
the client), and the loop has written the frame of `m` after the observation. -/
theorem stream_end_closes_nothing :
    ∃ s st,
      QueueHandler okBroker (rejectAll QueueEntity)
        (Request.mk "GET" (Except.ok "") ["a", "b"]) () = Outcome.streaming s 2 ∧
      run okBroker [Action.cancel 0, Action.observeEnd 0, Action.deliver 1 "m", Action.take 1,
        Action.forward 1] (Bridge.init s 2) = some st ∧
      (st.consumers 0).fwd = Fwd.signalling ∧
      (step okBroker (Action.take 0) st).isNone = true ∧
      (step okBroker (Action.observeEnd 0) st).isNone = true ∧
      (step okBroker (Action.forward 0) st).isNone = true ∧
      st.watcher = Watcher.waiting ∧
      (step okBroker Action.watcherClose st).isNone = true ∧
      closeCalls st.world.trace = 0 ∧
      st.world.w.body = "m\n" ∧
      st.world.trace.getLast? = some Event.Flush :=
  ⟨_, _, rfl, rfl, rfl, rfl, rfl, rfl, rfl, rfl, by decide, by decide, by decide⟩

end RabbitHttp
